import Mathlib

/-!
Verification of the `BlockHandle` / `Footer` on-disk primitives of the
sstable module (`src/sstable/mod.rs`), over a shallow embedding in which a
byte buffer is a `List Nat` (each element a byte value) and machine `u64`
values are `Nat` with explicit `< 2 ^ 64` bounds where they matter.
-/

namespace Wickdb

/-- Error status kinds. Modelled from the spec: `util/status.rs` is not in
the shown sources; the spec lists Corruption, InvalidArgument, IO and
NotFound as the semantic error kinds. -/
inductive Status where
  | OK
  | NotFound
  | Corruption
  | InvalidArgument
  | IOError
deriving DecidableEq

/-- Modelled from the spec: `WickErr::new(status, Some(msg))` carries a
status and an optional static message. -/
structure WickErr where
  status : Status
  msg : Option String
deriving DecidableEq

instance {ε α : Type} [DecidableEq ε] [DecidableEq α] : DecidableEq (Except ε α) := fun x y =>
  match x, y with
  | Except.error a, Except.error b =>
    if h : a = b then isTrue (by rw [h]) else isFalse (fun hh => h (Except.error.injEq a b ▸ hh))
  | Except.error a, Except.ok b => isFalse (fun hh => Except.noConfusion hh)
  | Except.ok a, Except.error b => isFalse (fun hh => Except.noConfusion hh)
  | Except.ok a, Except.ok b =>
    if h : a = b then isTrue (by rw [h]) else isFalse (fun hh => h (Except.ok.injEq a b ▸ hh))

/-- Maximum byte length of a varint-encoded u64 (`MAX_VARINT_LEN_U64` in
`util/varint.rs`, quoted by the spec as `MaxVarint64Len`, with
`2 * MAX_VARINT_LEN_U64 = 20`). -/
def MAX_VARINT_LEN_U64 : Nat := 10

namespace VarintU64

/-- Modelled from the spec: `util/varint.rs` is not in the shown sources;
the spec specifies a LEB128-style varint64 (low 7 bits first, high bit of a
byte is the continuation flag).  Structured on fuel so that it computes by
kernel reduction; for every `v < 2 ^ 64` the encoding terminates before the
fuel `MAX_VARINT_LEN_U64` is exhausted, so the fuel-0 branch is never
reached on u64 inputs. -/
def putBytesAux : Nat → Nat → List Nat
  | 0, v => [v]
  | fuel + 1, v => if v < 128 then [v] else (v % 128 + 128) :: putBytesAux fuel (v / 128)

/-- The LEB128 byte string of a u64 value. -/
def putBytes (v : Nat) : List Nat := putBytesAux MAX_VARINT_LEN_U64 v

/-- The byte length of the varint encoding of `v`. -/
def varint_len (v : Nat) : Nat := (putBytes v).length

/-- Modelled from the spec: `VarintU64::put_varint(dst, v)` appends the
varint encoding of `v` to `dst`. -/
def put_varint (dst : List Nat) (v : Nat) : List Nat := dst ++ putBytes v

/-- Modelled from the spec: the varint64 reader loop.  Accumulates 7 bits
per byte while the continuation bit is set; fails (returns `none`) when the
input ends before a terminating byte or when the shift would exceed what a
u64 holds (more than `MAX_VARINT_LEN_U64` bytes). -/
def readLoop : List Nat → Nat → Nat → Nat → Option (Nat × Nat)
  | [], _, _, _ => none
  | b :: rest, shift, result, i =>
    if shift ≤ 63 then
      if 128 ≤ b then readLoop rest (shift + 7) (result + b % 128 * 2 ^ shift) (i + 1)
      else some (result + b * 2 ^ shift, i + 1)
    else none

/-- Modelled from the spec: `VarintU64::read(src)` returns the decoded
value and the number of bytes consumed, or `none` on a truncated or
over-long varint. -/
def read (src : List Nat) : Option (Nat × Nat) := readLoop src 0 0 0

end VarintU64

/-- Little-endian byte string of `m` on `k` bytes. -/
def leEncode : Nat → Nat → List Nat
  | 0, _ => []
  | k + 1, m => m % 256 :: leEncode k (m / 256)

/-- Value of a little-endian byte string. -/
def leDecode : List Nat → Nat
  | [] => 0
  | b :: rest => b + 256 * leDecode rest

/-- Modelled from the spec: `put_fixed_64(dst, m)` from `util/coding.rs`
appends the 8 little-endian bytes of `m` to `dst`. -/
def put_fixed_64 (dst : List Nat) (m : Nat) : List Nat := dst ++ leEncode 8 m

/-- Modelled from the spec: `decode_fixed_64(src)` from `util/coding.rs`
decodes a u64 from the first (up to) 8 bytes of `src`, little-endian. -/
def decode_fixed_64 (src : List Nat) : Nat := leDecode (src.take 8)

/-- `Vec::resize(n, x)`: truncate to `n` elements, or pad with `x` up to
`n` elements. -/
def vecResize (l : List Nat) (n : Nat) (x : Nat) : List Nat :=
  l.take n ++ List.replicate (n - l.length) x

/-- The sstable magic number (`TABLE_MAGIC_NUMBER` in `sstable/mod.rs`). -/
def TABLE_MAGIC_NUMBER : Nat := 0xdb4775248b80fb57

/-- Maximum encoding length of a `BlockHandle`. -/
def MAX_BLOCK_HANDLE_ENCODE_LENGTH : Nat := 2 * MAX_VARINT_LEN_U64

/-- Encoded length of a `Footer`: two block handles and a magic number. -/
def FOOTER_ENCODED_LENGTH : Nat := 2 * MAX_BLOCK_HANDLE_ENCODE_LENGTH + 8

/-- `BlockHandle` is a pointer to the extent of a file that stores a
block: an offset and a size (trailer excluded). -/
structure BlockHandle where
  offset : Nat
  size : Nat
deriving DecidableEq

/-- `BlockHandle::new(offset, size)`. -/
def BlockHandle.new (offset size : Nat) : BlockHandle := ⟨offset, size⟩

/-- `BlockHandle::encoded_to(dst)`: appends varint encoded offset and size
into `dst`. -/
def BlockHandle.encoded_to (h : BlockHandle) (dst : List Nat) : List Nat :=
  VarintU64.put_varint (VarintU64.put_varint dst h.offset) h.size

/-- `BlockHandle::encoded()`: bytes for an encoded `BlockHandle`. -/
def BlockHandle.encoded (h : BlockHandle) : List Nat := h.encoded_to []

/-- `BlockHandle::decode_from(src)`: decodes a `BlockHandle` and the
number of consumed bytes, or a `Corruption` error when either varint read
fails. -/
def BlockHandle.decode_from (src : List Nat) : Except WickErr (BlockHandle × Nat) :=
  match VarintU64.read src with
  | some (offset, n) =>
    match VarintU64.read (src.drop n) with
    | some (size, m) => Except.ok (BlockHandle.new offset size, m + n)
    | none => Except.error ⟨Status.Corruption, some "bad block handle"⟩
  | none => Except.error ⟨Status.Corruption, some "bad block handle"⟩

/-- `Footer` holds the metaindex and index block handles. -/
structure Footer where
  meta_index_handle : BlockHandle
  index_handle : BlockHandle
deriving DecidableEq

/-- `Footer::new`. -/
def Footer.new (meta_index_handle index_handle : BlockHandle) : Footer :=
  ⟨meta_index_handle, index_handle⟩

/-- `Footer::encoded()`: both handles varint-encoded, the joint buffer
resized (zero-padded) to `2 * MAX_BLOCK_HANDLE_ENCODE_LENGTH`, then the
8-byte little-endian magic appended. -/
def Footer.encoded (f : Footer) : List Nat :=
  put_fixed_64
    (vecResize (f.index_handle.encoded_to (f.meta_index_handle.encoded_to []))
      (2 * MAX_BLOCK_HANDLE_ENCODE_LENGTH) 0)
    TABLE_MAGIC_NUMBER

/-- `Footer::decode_from(src)`.  The result is wrapped in `Option`: `none`
models a Rust panic, which happens exactly when the slice expression
`src[FOOTER_ENCODED_LENGTH - 8..]` is out of bounds.  Otherwise the magic
field is checked first, then the two handles are decoded from the start of
`src`. -/
def Footer.decode_from (src : List Nat) : Option (Except WickErr (Footer × Nat)) :=
  if src.length < FOOTER_ENCODED_LENGTH - 8 then none
  else
    let magic := decode_fixed_64 (src.drop (FOOTER_ENCODED_LENGTH - 8))
    if magic ≠ TABLE_MAGIC_NUMBER then
      some (Except.error ⟨Status.Corruption, some "not an sstable (bad magic number)"⟩)
    else
      match BlockHandle.decode_from src with
      | Except.error e => some (Except.error e)
      | Except.ok (meta_index_handle, n) =>
        match BlockHandle.decode_from (src.drop n) with
        | Except.error e => some (Except.error e)
        | Except.ok (index_handle, m) =>
          some (Except.ok (⟨meta_index_handle, index_handle⟩, m + n))

/-! ### Varint lemmas -/

theorem readLoop_putBytesAux :
    ∀ (fuel v : Nat), v < 128 ^ fuel →
      ∀ (rest : List Nat) (shift result i : Nat), shift + 7 * fuel ≤ 70 → shift ≤ 63 →
        VarintU64.readLoop (VarintU64.putBytesAux fuel v ++ rest) shift result i =
          some (result + v * 2 ^ shift, i + (VarintU64.putBytesAux fuel v).length) := by
  intro fuel
  induction fuel with
  | zero =>
    intro v hv rest shift result i h70 hs
    have hv0 : v = 0 := by simpa using hv
    subst hv0
    simp [VarintU64.putBytesAux, VarintU64.readLoop, hs]
  | succ fuel ih =>
    intro v hv rest shift result i h70 hs
    by_cases hlt : v < 128
    · have hnle : ¬ 128 ≤ v := by omega
      simp [VarintU64.putBytesAux, hlt, VarintU64.readLoop, hs, hnle]
    · have hfuel : 1 ≤ fuel := by
        rcases Nat.eq_zero_or_pos fuel with h0 | h1
        · subst h0; simp [pow_succ, pow_zero] at hv; omega
        · exact h1
      have hb : 128 ≤ v % 128 + 128 := by omega
      have hv' : v / 128 < 128 ^ fuel := by
        have hmul : v < 128 ^ fuel * 128 := by
          have := hv; rwa [pow_succ] at this
        exact (Nat.div_lt_iff_lt_mul (by norm_num)).mpr hmul
      have hs7 : shift + 7 ≤ 63 := by omega
      have h70' : (shift + 7) + 7 * fuel ≤ 70 := by omega
      have hrec := ih (v / 128) hv' rest (shift + 7)
        (result + (v % 128 + 128) % 128 * 2 ^ shift) (i + 1) h70' hs7
      have hmod : (v % 128 + 128) % 128 = v % 128 := by omega
      rw [hmod] at hrec
      simp only [VarintU64.putBytesAux, if_neg hlt, List.cons_append, VarintU64.readLoop,
        if_pos hs, if_pos hb]
      rw [hmod, hrec]
      have harith : result + v % 128 * 2 ^ shift + v / 128 * 2 ^ (shift + 7) =
          result + v * 2 ^ shift := by
        have : v / 128 * 2 ^ (shift + 7) = 128 * (v / 128) * 2 ^ shift := by
          rw [pow_add]; ring
        rw [this]
        have hv128 : v % 128 + 128 * (v / 128) = v := Nat.mod_add_div v 128
        calc result + v % 128 * 2 ^ shift + 128 * (v / 128) * 2 ^ shift
            = result + (v % 128 + 128 * (v / 128)) * 2 ^ shift := by ring
          _ = result + v * 2 ^ shift := by rw [hv128]
      rw [harith]
      simp [List.length_cons]
      omega

theorem putBytesAux_length :
    ∀ (fuel v : Nat), 0 < fuel → v < 128 ^ fuel →
      (VarintU64.putBytesAux fuel v).length ≤ fuel := by
  intro fuel
  induction fuel with
  | zero => intro v h; omega
  | succ fuel ih =>
    intro v _ hv
    by_cases hlt : v < 128
    · simp [VarintU64.putBytesAux, hlt]
    · have hfuel : 0 < fuel := by
        rcases Nat.eq_zero_or_pos fuel with h0 | h1
        · subst h0; simp [pow_succ, pow_zero] at hv; omega
        · exact h1
      have hv' : v / 128 < 128 ^ fuel := by
        have hmul : v < 128 ^ fuel * 128 := by
          have := hv; rwa [pow_succ] at this
        exact (Nat.div_lt_iff_lt_mul (by norm_num)).mpr hmul
      have := ih (v / 128) hfuel hv'
      simp [VarintU64.putBytesAux, hlt]
      omega

theorem putBytes_length_le (v : Nat) (hv : v < 2 ^ 64) :
    (VarintU64.putBytes v).length ≤ MAX_VARINT_LEN_U64 := by
  have h : v < 128 ^ 10 := lt_of_lt_of_le hv (by norm_num)
  exact putBytesAux_length 10 v (by norm_num) h

theorem read_putBytes (v : Nat) (hv : v < 2 ^ 64) (rest : List Nat) :
    VarintU64.read (VarintU64.putBytes v ++ rest) = some (v, VarintU64.varint_len v) := by
  have h : v < 128 ^ 10 := lt_of_lt_of_le hv (by norm_num)
  have := readLoop_putBytesAux 10 v h rest 0 0 0 (by norm_num) (by norm_num)
  simpa [VarintU64.read, VarintU64.putBytes, VarintU64.varint_len, MAX_VARINT_LEN_U64] using this

theorem readLoop_consumed :
    ∀ (src : List Nat) (shift result i v n : Nat),
      VarintU64.readLoop src shift result i = some (v, n) → n ≤ i + src.length := by
  intro src
  induction src with
  | nil => intro shift result i v n h; simp [VarintU64.readLoop] at h
  | cons b rest ih =>
    intro shift result i v n h
    unfold VarintU64.readLoop at h
    split at h
    · split at h
      · have := ih _ _ _ _ _ h
        simp only [List.length_cons] at *
        omega
      · simp only [Option.some.injEq, Prod.mk.injEq] at h
        simp only [List.length_cons]
        omega
    · exact absurd h (by simp)

theorem read_consumed (src : List Nat) (v n : Nat)
    (h : VarintU64.read src = some (v, n)) : n ≤ src.length := by
  have := readLoop_consumed src 0 0 0 v n h
  omega

/-! ### Little-endian fixed-width lemmas -/

theorem leEncode_length : ∀ (k m : Nat), (leEncode k m).length = k := by
  intro k
  induction k with
  | zero => intro m; simp [leEncode]
  | succ k ih => intro m; simp [leEncode, ih]

theorem leDecode_leEncode : ∀ (k m : Nat), leDecode (leEncode k m) = m % 256 ^ k := by
  intro k
  induction k with
  | zero => intro m; simp [leEncode, leDecode, Nat.mod_one]
  | succ k ih =>
    intro m
    simp only [leEncode, leDecode, ih]
    rw [pow_succ']
    rw [Nat.mod_mul]

theorem leDecode_set :
    ∀ (l : List Nat) (j c : Nat), j < l.length → c ≠ l.getD j 0 →
      leDecode (l.set j c) ≠ leDecode l := by
  intro l
  induction l with
  | nil => intro j c h; simp at h
  | cons b t ih =>
    intro j c hj hc
    cases j with
    | zero =>
      simp only [List.getD_cons_zero] at hc
      simp only [List.set, leDecode]
      omega
    | succ j =>
      simp only [List.getD_cons_succ] at hc
      have hj' : j < t.length := by simp at hj; omega
      have := ih j c hj' hc
      simp only [List.set, leDecode]
      omega

theorem leDecode_lt :
    ∀ (l : List Nat), (∀ b ∈ l, b < 256) → leDecode l < 256 ^ l.length := by
  intro l
  induction l with
  | nil => intro _; simp [leDecode]
  | cons b t ih =>
    intro hb
    have hbb : b < 256 := hb b (by simp)
    have ht := ih (fun x hx => hb x (by simp [hx]))
    simp only [leDecode, List.length_cons, pow_succ']
    calc b + 256 * leDecode t < 256 + 256 * leDecode t := by omega
      _ = 256 * (leDecode t + 1) := by ring
      _ ≤ 256 * 256 ^ t.length := Nat.mul_le_mul_left _ (by omega)

/-! ### BlockHandle lemmas -/

theorem blockHandle_encoded_eq (h : BlockHandle) :
    h.encoded = VarintU64.putBytes h.offset ++ VarintU64.putBytes h.size := by
  simp [BlockHandle.encoded, BlockHandle.encoded_to, VarintU64.put_varint]

theorem blockHandle_encoded_length (h : BlockHandle) :
    h.encoded.length = VarintU64.varint_len h.offset + VarintU64.varint_len h.size := by
  simp [blockHandle_encoded_eq, VarintU64.varint_len]

theorem blockHandle_decode_encoded_append (h : BlockHandle) (rest : List Nat)
    (h₁ : h.offset < 2 ^ 64) (h₂ : h.size < 2 ^ 64) :
    BlockHandle.decode_from (h.encoded ++ rest) =
      Except.ok (h, VarintU64.varint_len h.size + VarintU64.varint_len h.offset) := by
  have heq : h.encoded ++ rest =
      VarintU64.putBytes h.offset ++ (VarintU64.putBytes h.size ++ rest) := by
    rw [blockHandle_encoded_eq, List.append_assoc]
  have hr1 : VarintU64.read (h.encoded ++ rest) = some (h.offset, VarintU64.varint_len h.offset) := by
    rw [heq]; exact read_putBytes h.offset h₁ _
  have hdrop : (h.encoded ++ rest).drop (VarintU64.varint_len h.offset) =
      VarintU64.putBytes h.size ++ rest := by
    rw [heq]
    exact List.drop_left' rfl
  have hr2 : VarintU64.read ((h.encoded ++ rest).drop (VarintU64.varint_len h.offset)) =
      some (h.size, VarintU64.varint_len h.size) := by
    rw [hdrop]; exact read_putBytes h.size h₂ rest
  simp [BlockHandle.decode_from, hr1, hr2, BlockHandle.new]

/-! ### Footer structure lemmas -/

theorem footer_joint_handles_length (f : Footer)
    (h₁ : f.meta_index_handle.offset < 2 ^ 64) (h₂ : f.meta_index_handle.size < 2 ^ 64)
    (h₃ : f.index_handle.offset < 2 ^ 64) (h₄ : f.index_handle.size < 2 ^ 64) :
    (f.meta_index_handle.encoded ++ f.index_handle.encoded).length ≤
      2 * MAX_BLOCK_HANDLE_ENCODE_LENGTH := by
  have l1 := putBytes_length_le _ h₁
  have l2 := putBytes_length_le _ h₂
  have l3 := putBytes_length_le _ h₃
  have l4 := putBytes_length_le _ h₄
  simp only [List.length_append, blockHandle_encoded_length, VarintU64.varint_len,
    MAX_BLOCK_HANDLE_ENCODE_LENGTH, MAX_VARINT_LEN_U64] at *
  omega

theorem footer_encoded_structure (f : Footer)
    (h₁ : f.meta_index_handle.offset < 2 ^ 64) (h₂ : f.meta_index_handle.size < 2 ^ 64)
    (h₃ : f.index_handle.offset < 2 ^ 64) (h₄ : f.index_handle.size < 2 ^ 64) :
    Footer.encoded f =
      (f.meta_index_handle.encoded ++ f.index_handle.encoded) ++
        (List.replicate
          (2 * MAX_BLOCK_HANDLE_ENCODE_LENGTH -
            (f.meta_index_handle.encoded ++ f.index_handle.encoded).length) 0 ++
          leEncode 8 TABLE_MAGIC_NUMBER) := by
  have lAB := footer_joint_handles_length f h₁ h₂ h₃ h₄
  have he : f.index_handle.encoded_to (f.meta_index_handle.encoded_to []) =
      f.meta_index_handle.encoded ++ f.index_handle.encoded := by
    simp [BlockHandle.encoded, BlockHandle.encoded_to, VarintU64.put_varint, List.append_assoc]
  unfold Footer.encoded vecResize put_fixed_64
  rw [he, List.take_of_length_le lAB, List.append_assoc]

theorem footer_encoded_length (f : Footer)
    (h₁ : f.meta_index_handle.offset < 2 ^ 64) (h₂ : f.meta_index_handle.size < 2 ^ 64)
    (h₃ : f.index_handle.offset < 2 ^ 64) (h₄ : f.index_handle.size < 2 ^ 64) :
    (Footer.encoded f).length = FOOTER_ENCODED_LENGTH := by
  have lAB := footer_joint_handles_length f h₁ h₂ h₃ h₄
  rw [footer_encoded_structure f h₁ h₂ h₃ h₄]
  simp only [List.length_append, List.length_replicate, leEncode_length,
    FOOTER_ENCODED_LENGTH] at *
  omega

theorem footer_decode_encoded (f : Footer)
    (h₁ : f.meta_index_handle.offset < 2 ^ 64) (h₂ : f.meta_index_handle.size < 2 ^ 64)
    (h₃ : f.index_handle.offset < 2 ^ 64) (h₄ : f.index_handle.size < 2 ^ 64) :
    Footer.decode_from (Footer.encoded f) =
      some (Except.ok (f,
        (VarintU64.varint_len f.index_handle.size + VarintU64.varint_len f.index_handle.offset) +
          (VarintU64.varint_len f.meta_index_handle.size +
            VarintU64.varint_len f.meta_index_handle.offset))) := by
  have lAB := footer_joint_handles_length f h₁ h₂ h₃ h₄
  have hlen := footer_encoded_length f h₁ h₂ h₃ h₄
  have hstruct := footer_encoded_structure f h₁ h₂ h₃ h₄
  set AB := f.meta_index_handle.encoded ++ f.index_handle.encoded with hAB
  set pad := List.replicate (2 * MAX_BLOCK_HANDLE_ENCODE_LENGTH - AB.length) 0 with hpad
  have hnotshort : ¬ (Footer.encoded f).length < FOOTER_ENCODED_LENGTH - 8 := by
    rw [hlen]; simp [FOOTER_ENCODED_LENGTH]
  have hpre_len : (AB ++ pad).length = FOOTER_ENCODED_LENGTH - 8 := by
    simp only [List.length_append, hpad, List.length_replicate, FOOTER_ENCODED_LENGTH,
      MAX_BLOCK_HANDLE_ENCODE_LENGTH, MAX_VARINT_LEN_U64] at *
    omega
  have hdropmagic : (Footer.encoded f).drop (FOOTER_ENCODED_LENGTH - 8) =
      leEncode 8 TABLE_MAGIC_NUMBER := by
    rw [hstruct, ← List.append_assoc]
    exact List.drop_left' hpre_len
  have hmagic : decode_fixed_64 ((Footer.encoded f).drop (FOOTER_ENCODED_LENGTH - 8)) =
      TABLE_MAGIC_NUMBER := by
    rw [hdropmagic]
    unfold decode_fixed_64
    rw [List.take_of_length_le (by rw [leEncode_length]), leDecode_leEncode]
    norm_num [TABLE_MAGIC_NUMBER]
  have hmeta : BlockHandle.decode_from (Footer.encoded f) =
      Except.ok (f.meta_index_handle,
        VarintU64.varint_len f.meta_index_handle.size +
          VarintU64.varint_len f.meta_index_handle.offset) := by
    have : Footer.encoded f = f.meta_index_handle.encoded ++
        (f.index_handle.encoded ++ (pad ++ leEncode 8 TABLE_MAGIC_NUMBER)) := by
      rw [hstruct, hAB]
      simp [List.append_assoc]
    rw [this]
    exact blockHandle_decode_encoded_append _ _ h₁ h₂
  have hdropmeta : (Footer.encoded f).drop
      (VarintU64.varint_len f.meta_index_handle.size +
        VarintU64.varint_len f.meta_index_handle.offset) =
      f.index_handle.encoded ++ (pad ++ leEncode 8 TABLE_MAGIC_NUMBER) := by
    have heq : Footer.encoded f = f.meta_index_handle.encoded ++
        (f.index_handle.encoded ++ (pad ++ leEncode 8 TABLE_MAGIC_NUMBER)) := by
      rw [hstruct, hAB]
      simp [List.append_assoc]
    rw [heq]
    apply List.drop_left'
    rw [blockHandle_encoded_length]
    omega
  have hidx : BlockHandle.decode_from ((Footer.encoded f).drop
      (VarintU64.varint_len f.meta_index_handle.size +
        VarintU64.varint_len f.meta_index_handle.offset)) =
      Except.ok (f.index_handle,
        VarintU64.varint_len f.index_handle.size +
          VarintU64.varint_len f.index_handle.offset) := by
    rw [hdropmeta]
    exact blockHandle_decode_encoded_append _ _ h₃ h₄
  unfold Footer.decode_from
  rw [if_neg hnotshort]
  simp only [hmagic, hmeta, hidx, ne_eq, not_true_eq_false, if_false]

/-! ### BlockHandle decode branch lemmas -/

theorem blockHandle_decode_from_none (src : List Nat)
    (h : VarintU64.read src = none) :
    BlockHandle.decode_from src =
      Except.error ⟨Status.Corruption, some "bad block handle"⟩ := by
  simp [BlockHandle.decode_from, h]

theorem blockHandle_decode_from_some_none (src : List Nat) (v n : Nat)
    (h1 : VarintU64.read src = some (v, n)) (h2 : VarintU64.read (src.drop n) = none) :
    BlockHandle.decode_from src =
      Except.error ⟨Status.Corruption, some "bad block handle"⟩ := by
  simp [BlockHandle.decode_from, h1, h2]

theorem blockHandle_decode_from_some_some (src : List Nat) (v n w m : Nat)
    (h1 : VarintU64.read src = some (v, n)) (h2 : VarintU64.read (src.drop n) = some (w, m)) :
    BlockHandle.decode_from src = Except.ok (BlockHandle.new v w, m + n) := by
  simp [BlockHandle.decode_from, h1, h2]

/-! ### Footer decode branch lemmas -/

theorem footer_decode_short (src : List Nat)
    (h : src.length < FOOTER_ENCODED_LENGTH - 8) : Footer.decode_from src = none := by
  unfold Footer.decode_from
  rw [if_pos h]

theorem footer_decode_bad_magic (src : List Nat)
    (h : ¬ src.length < FOOTER_ENCODED_LENGTH - 8)
    (hm : decode_fixed_64 (src.drop (FOOTER_ENCODED_LENGTH - 8)) ≠ TABLE_MAGIC_NUMBER) :
    Footer.decode_from src =
      some (Except.error ⟨Status.Corruption, some "not an sstable (bad magic number)"⟩) := by
  simp [Footer.decode_from, h, hm]

theorem footer_decode_isSome (src : List Nat)
    (h : ¬ src.length < FOOTER_ENCODED_LENGTH - 8) :
    Footer.decode_from src ≠ none := by
  unfold Footer.decode_from
  rw [if_neg h]
  by_cases hm : decode_fixed_64 (src.drop (FOOTER_ENCODED_LENGTH - 8)) = TABLE_MAGIC_NUMBER
  · simp only [hm, ne_eq, not_true_eq_false, if_false]
    rcases BlockHandle.decode_from src with e | ⟨bh, n⟩
    · simp
    · rcases hbd : BlockHandle.decode_from (src.drop n) with e | ⟨bh2, m⟩ <;> simp [hbd]
  · simp [hm]

/-! ### Claim theorems -/

/-- C1: For every `Footer` `f` (any pair of `BlockHandle`s whose fields fit in a
u64), `Footer.decode_from (Footer.encoded f)` succeeds and returns a footer
whose `meta_index_handle` and `index_handle` equal those of `f`, and
`(Footer.encoded f).length` equals `FOOTER_ENCODED_LENGTH`
(`2 * 2 * MAX_VARINT_LEN_U64 + 8`). -/
theorem footer_encode_decode_roundtrip (f : Footer)
    (h₁ : f.meta_index_handle.offset < 2 ^ 64) (h₂ : f.meta_index_handle.size < 2 ^ 64)
    (h₃ : f.index_handle.offset < 2 ^ 64) (h₄ : f.index_handle.size < 2 ^ 64) :
    (∃ n, Footer.decode_from (Footer.encoded f) = some (Except.ok (f, n))) ∧
      (Footer.encoded f).length = FOOTER_ENCODED_LENGTH :=
  ⟨⟨_, footer_decode_encoded f h₁ h₂ h₃ h₄⟩, footer_encoded_length f h₁ h₂ h₃ h₄⟩

/-- Witness for C1 at the footer from the repository's `test_encode_decode`. -/
theorem footer_encode_decode_roundtrip_witness :
    (∃ n, Footer.decode_from (Footer.encoded ⟨⟨300, 100⟩, ⟨401, 1000⟩⟩) =
        some (Except.ok ((⟨⟨300, 100⟩, ⟨401, 1000⟩⟩ : Footer), n))) ∧
      (Footer.encoded (⟨⟨300, 100⟩, ⟨401, 1000⟩⟩ : Footer)).length = FOOTER_ENCODED_LENGTH :=
  footer_encode_decode_roundtrip ⟨⟨300, 100⟩, ⟨401, 1000⟩⟩
    (by decide) (by decide) (by decide) (by decide)

/-- C2: `Footer.encoded` produces exactly the metaindex handle's varints, then
the index handle's varints, the joint buffer zero-padded to
`2 * MAX_BLOCK_HANDLE_ENCODE_LENGTH = 40` bytes, then the 8-byte little-endian
magic `0xdb4775248b80fb57` appended, for a final length of 48 bytes. -/
theorem footer_encoded_layout (f : Footer)
    (h₁ : f.meta_index_handle.offset < 2 ^ 64) (h₂ : f.meta_index_handle.size < 2 ^ 64)
    (h₃ : f.index_handle.offset < 2 ^ 64) (h₄ : f.index_handle.size < 2 ^ 64) :
    Footer.encoded f =
      (f.meta_index_handle.encoded ++ f.index_handle.encoded) ++
        (List.replicate
          (2 * MAX_BLOCK_HANDLE_ENCODE_LENGTH -
            (f.meta_index_handle.encoded ++ f.index_handle.encoded).length) 0 ++
          leEncode 8 0xdb4775248b80fb57) ∧
      2 * MAX_BLOCK_HANDLE_ENCODE_LENGTH = 40 ∧ (Footer.encoded f).length = 48 := by
  refine ⟨?_, by norm_num [MAX_BLOCK_HANDLE_ENCODE_LENGTH, MAX_VARINT_LEN_U64], ?_⟩
  · exact footer_encoded_structure f h₁ h₂ h₃ h₄
  · have := footer_encoded_length f h₁ h₂ h₃ h₄
    simpa [FOOTER_ENCODED_LENGTH, MAX_BLOCK_HANDLE_ENCODE_LENGTH, MAX_VARINT_LEN_U64] using this

/-- Witness for C2 at a concrete footer. -/
theorem footer_encoded_layout_witness :
    Footer.encoded (⟨⟨300, 100⟩, ⟨401, 1000⟩⟩ : Footer) =
      ((⟨300, 100⟩ : BlockHandle).encoded ++ (⟨401, 1000⟩ : BlockHandle).encoded) ++
        (List.replicate
          (2 * MAX_BLOCK_HANDLE_ENCODE_LENGTH -
            ((⟨300, 100⟩ : BlockHandle).encoded ++ (⟨401, 1000⟩ : BlockHandle).encoded).length) 0 ++
          leEncode 8 0xdb4775248b80fb57) ∧
      2 * MAX_BLOCK_HANDLE_ENCODE_LENGTH = 40 ∧
      (Footer.encoded (⟨⟨300, 100⟩, ⟨401, 1000⟩⟩ : Footer)).length = 48 :=
  footer_encoded_layout ⟨⟨300, 100⟩, ⟨401, 1000⟩⟩ (by decide) (by decide) (by decide) (by decide)

/-- C3 counterexample: the encoded footer of the repository's test footer
occupies 48 bytes, not 40 as the claim states. -/
theorem footer_encoded_length_ne_40 :
    (Footer.encoded (⟨⟨300, 100⟩, ⟨401, 1000⟩⟩ : Footer)).length = 48 ∧
      (Footer.encoded (⟨⟨300, 100⟩, ⟨401, 1000⟩⟩ : Footer)).length ≠ 40 := by
  decide

/-- C3 (amended): for every `Footer` (with u64-bounded fields) the encoded
footer — handle varints, zero padding to 40 bytes, then the 8-byte LE
magic — occupies exactly 48 bytes in total. -/
theorem footer_encoded_total_length (f : Footer)
    (h₁ : f.meta_index_handle.offset < 2 ^ 64) (h₂ : f.meta_index_handle.size < 2 ^ 64)
    (h₃ : f.index_handle.offset < 2 ^ 64) (h₄ : f.index_handle.size < 2 ^ 64) :
    (Footer.encoded f).length = 48 := by
  have := footer_encoded_length f h₁ h₂ h₃ h₄
  simpa [FOOTER_ENCODED_LENGTH, MAX_BLOCK_HANDLE_ENCODE_LENGTH, MAX_VARINT_LEN_U64] using this

/-- Witness for the amended C3 at a concrete footer. -/
theorem footer_encoded_total_length_witness :
    (Footer.encoded (⟨⟨0, 0⟩, ⟨0, 0⟩⟩ : Footer)).length = 48 :=
  footer_encoded_total_length ⟨⟨0, 0⟩, ⟨0, 0⟩⟩ (by decide) (by decide) (by decide) (by decide)

/-- C4: For every `BlockHandle` `h` with u64-bounded fields,
`BlockHandle.decode_from (BlockHandle.encoded h)` returns `Ok (h, n)` where
`n = varint_len h.offset + varint_len h.size`: the consumed byte count equals
the encoded length. -/
theorem blockHandle_encode_decode_roundtrip (h : BlockHandle)
    (h₁ : h.offset < 2 ^ 64) (h₂ : h.size < 2 ^ 64) :
    BlockHandle.decode_from h.encoded =
      Except.ok (h, VarintU64.varint_len h.offset + VarintU64.varint_len h.size) ∧
      h.encoded.length = VarintU64.varint_len h.offset + VarintU64.varint_len h.size := by
  constructor
  · have := blockHandle_decode_encoded_append h [] h₁ h₂
    rw [List.append_nil] at this
    rw [this, Nat.add_comm]
  · exact blockHandle_encoded_length h

/-- Witness for C4 at the handle `(300, 100)`. -/
theorem blockHandle_encode_decode_roundtrip_witness :
    BlockHandle.decode_from (⟨300, 100⟩ : BlockHandle).encoded =
      Except.ok ((⟨300, 100⟩ : BlockHandle),
        VarintU64.varint_len 300 + VarintU64.varint_len 100) ∧
      (⟨300, 100⟩ : BlockHandle).encoded.length =
        VarintU64.varint_len 300 + VarintU64.varint_len 100 :=
  blockHandle_encode_decode_roundtrip ⟨300, 100⟩ (by decide) (by decide)

/-- C7: For every `BlockHandle` with u64-bounded fields, the byte length of its
encoding (two varint64s) is at most
`2 * MAX_VARINT_LEN_U64 = MAX_BLOCK_HANDLE_ENCODE_LENGTH` bytes. -/
theorem blockHandle_encoded_length_le (h : BlockHandle)
    (h₁ : h.offset < 2 ^ 64) (h₂ : h.size < 2 ^ 64) :
    h.encoded.length ≤ MAX_BLOCK_HANDLE_ENCODE_LENGTH ∧
      MAX_BLOCK_HANDLE_ENCODE_LENGTH = 2 * MAX_VARINT_LEN_U64 := by
  refine ⟨?_, rfl⟩
  have l1 := putBytes_length_le _ h₁
  have l2 := putBytes_length_le _ h₂
  simp only [blockHandle_encoded_length, VarintU64.varint_len, MAX_BLOCK_HANDLE_ENCODE_LENGTH,
    MAX_VARINT_LEN_U64] at *
  omega

/-- Witness for C7 at a handle with maximal u64 fields. -/
theorem blockHandle_encoded_length_le_witness :
    (⟨2 ^ 64 - 1, 2 ^ 64 - 1⟩ : BlockHandle).encoded.length ≤ MAX_BLOCK_HANDLE_ENCODE_LENGTH ∧
      MAX_BLOCK_HANDLE_ENCODE_LENGTH = 2 * MAX_VARINT_LEN_U64 :=
  blockHandle_encoded_length_le ⟨2 ^ 64 - 1, 2 ^ 64 - 1⟩ (by decide) (by decide)

/-- C8: `Footer.decode_from` on an encoded footer decodes the metaindex handle
from the start and the index handle immediately after it, ignores the trailing
zero padding before the magic, and returns a consumed length equal to the sum
of the two handles' varint lengths (not the padded footer length). -/
theorem footer_decode_consumed (f : Footer)
    (h₁ : f.meta_index_handle.offset < 2 ^ 64) (h₂ : f.meta_index_handle.size < 2 ^ 64)
    (h₃ : f.index_handle.offset < 2 ^ 64) (h₄ : f.index_handle.size < 2 ^ 64) :
    Footer.decode_from (Footer.encoded f) =
      some (Except.ok (f,
        VarintU64.varint_len f.meta_index_handle.offset +
          VarintU64.varint_len f.meta_index_handle.size +
          (VarintU64.varint_len f.index_handle.offset +
            VarintU64.varint_len f.index_handle.size))) := by
  rw [footer_decode_encoded f h₁ h₂ h₃ h₄]
  have harith :
      VarintU64.varint_len f.index_handle.size + VarintU64.varint_len f.index_handle.offset +
        (VarintU64.varint_len f.meta_index_handle.size +
          VarintU64.varint_len f.meta_index_handle.offset) =
      VarintU64.varint_len f.meta_index_handle.offset +
        VarintU64.varint_len f.meta_index_handle.size +
        (VarintU64.varint_len f.index_handle.offset +
          VarintU64.varint_len f.index_handle.size) := by ring
  rw [harith]

/-- Witness for C8: on the test footer the consumed length is 7, which is
less than the 48-byte padded footer length. -/
theorem footer_decode_consumed_witness :
    Footer.decode_from (Footer.encoded (⟨⟨300, 100⟩, ⟨401, 1000⟩⟩ : Footer)) =
      some (Except.ok ((⟨⟨300, 100⟩, ⟨401, 1000⟩⟩ : Footer),
        VarintU64.varint_len 300 + VarintU64.varint_len 100 +
          (VarintU64.varint_len 401 + VarintU64.varint_len 1000))) ∧
      VarintU64.varint_len 300 + VarintU64.varint_len 100 +
          (VarintU64.varint_len 401 + VarintU64.varint_len 1000) = 7 :=
  ⟨footer_decode_consumed ⟨⟨300, 100⟩, ⟨401, 1000⟩⟩
      (by decide) (by decide) (by decide) (by decide),
    by decide⟩

/-- C5: For every `Footer` `f` (u64-bounded fields) and every single-byte
change to any of the 8 magic bytes of `Footer.encoded f` (position
`FOOTER_ENCODED_LENGTH - 8 + j` with `j < 8`, new value different from the
byte there), `Footer.decode_from` on the altered bytes returns the
`Status.Corruption` error "not an sstable (bad magic number)". -/
theorem footer_decode_magic_flip (f : Footer) (j c : Nat)
    (h₁ : f.meta_index_handle.offset < 2 ^ 64) (h₂ : f.meta_index_handle.size < 2 ^ 64)
    (h₃ : f.index_handle.offset < 2 ^ 64) (h₄ : f.index_handle.size < 2 ^ 64)
    (hj : j < 8)
    (hc : c ≠ (Footer.encoded f).getD (FOOTER_ENCODED_LENGTH - 8 + j) 0) :
    Footer.decode_from ((Footer.encoded f).set (FOOTER_ENCODED_LENGTH - 8 + j) c) =
      some (Except.error ⟨Status.Corruption, some "not an sstable (bad magic number)"⟩) := by
  have h40 : FOOTER_ENCODED_LENGTH - 8 = 40 := by
    norm_num [FOOTER_ENCODED_LENGTH, MAX_BLOCK_HANDLE_ENCODE_LENGTH, MAX_VARINT_LEN_U64]
  rw [h40] at hc ⊢
  have hstruct := footer_encoded_structure f h₁ h₂ h₃ h₄
  have lAB := footer_joint_handles_length f h₁ h₂ h₃ h₄
  set M := leEncode 8 TABLE_MAGIC_NUMBER with hM
  set pre := (f.meta_index_handle.encoded ++ f.index_handle.encoded) ++
      List.replicate
        (2 * MAX_BLOCK_HANDLE_ENCODE_LENGTH -
          (f.meta_index_handle.encoded ++ f.index_handle.encoded).length) 0 with hpre
  have hsplit : Footer.encoded f = pre ++ M := by
    rw [hstruct, hpre]
    simp [List.append_assoc]
  have hpre_len : pre.length = 40 := by
    simp only [hpre, List.length_append, List.length_replicate,
      MAX_BLOCK_HANDLE_ENCODE_LENGTH, MAX_VARINT_LEN_U64] at *
    omega
  have hML : M.length = 8 := leEncode_length 8 _
  have hset : (Footer.encoded f).set (40 + j) c = pre ++ M.set j c := by
    rw [hsplit, List.set_append, if_neg (by omega), hpre_len, Nat.add_sub_cancel_left]
  have hgd : (Footer.encoded f).getD (40 + j) 0 = M.getD j 0 := by
    rw [hsplit, List.getD_eq_getElem?_getD,
      List.getElem?_append_right (by rw [hpre_len]; omega), hpre_len,
      Nat.add_sub_cancel_left, ← List.getD_eq_getElem?_getD]
  have hnotshort : ¬ ((Footer.encoded f).set (40 + j) c).length < FOOTER_ENCODED_LENGTH - 8 := by
    rw [List.length_set, footer_encoded_length f h₁ h₂ h₃ h₄, h40]
    norm_num [FOOTER_ENCODED_LENGTH, MAX_BLOCK_HANDLE_ENCODE_LENGTH, MAX_VARINT_LEN_U64]
  have hdrop : ((Footer.encoded f).set (40 + j) c).drop 40 = M.set j c := by
    rw [hset]
    exact List.drop_left' hpre_len
  have hMval : leDecode M = TABLE_MAGIC_NUMBER := by
    rw [hM, leDecode_leEncode]
    norm_num [TABLE_MAGIC_NUMBER]
  have hmagic_ne :
      decode_fixed_64 (((Footer.encoded f).set (40 + j) c).drop 40) ≠ TABLE_MAGIC_NUMBER := by
    rw [hdrop]
    unfold decode_fixed_64
    rw [List.take_of_length_le (by rw [List.length_set, hML])]
    have hne := leDecode_set M j c (by rw [hML]; omega) (by rw [← hgd]; exact hc)
    rw [← hMval]
    exact hne
  exact footer_decode_bad_magic ((Footer.encoded f).set (40 + j) c) hnotshort
    (by rw [h40]; exact hmagic_ne)

/-- Witness for C5: flip the last magic byte of the test footer's encoding
(the repository's `test_footer_corruption` scenario, `0xdb → 0xdc`). -/
theorem footer_decode_magic_flip_witness :
    Footer.decode_from
        ((Footer.encoded (⟨⟨300, 100⟩, ⟨401, 1000⟩⟩ : Footer)).set
          (FOOTER_ENCODED_LENGTH - 8 + 7) 0xdc) =
      some (Except.error ⟨Status.Corruption, some "not an sstable (bad magic number)"⟩) :=
  footer_decode_magic_flip ⟨⟨300, 100⟩, ⟨401, 1000⟩⟩ 7 0xdc
    (by decide) (by decide) (by decide) (by decide) (by decide) (by decide)

/-- C6: `BlockHandle.decode_from` returns an error exactly when reading either
of the two varint64s from the input fails, that error is always the
`Status.Corruption` error "bad block handle", and a successful varint read
never consumes more bytes than the input holds (so the slice `src[n..]` taken
by the code is always in bounds and the function is total). -/
theorem blockHandle_decode_error_iff (src : List Nat) :
    (∀ e, BlockHandle.decode_from src = Except.error e →
        e = ⟨Status.Corruption, some "bad block handle"⟩) ∧
      ((∃ e, BlockHandle.decode_from src = Except.error e) ↔
        (VarintU64.read src = none ∨
          ∃ p, VarintU64.read src = some p ∧ VarintU64.read (src.drop p.2) = none)) ∧
      (∀ p, VarintU64.read src = some p → p.2 ≤ src.length) := by
  refine ⟨?_, ?_, fun p hp => read_consumed src p.1 p.2 hp⟩
  · intro e he
    rcases h1 : VarintU64.read src with _ | ⟨v, n⟩
    · rw [blockHandle_decode_from_none src h1] at he
      simp only [Except.error.injEq] at he
      exact he.symm
    · rcases h2 : VarintU64.read (src.drop n) with _ | ⟨w, m⟩
      · rw [blockHandle_decode_from_some_none src v n h1 h2] at he
        simp only [Except.error.injEq] at he
        exact he.symm
      · rw [blockHandle_decode_from_some_some src v n w m h1 h2] at he
        exact absurd he (by simp)
  · constructor
    · rintro ⟨e, he⟩
      rcases h1 : VarintU64.read src with _ | ⟨v, n⟩
      · exact Or.inl rfl
      · rcases h2 : VarintU64.read (src.drop n) with _ | ⟨w, m⟩
        · exact Or.inr ⟨(v, n), rfl, h2⟩
        · rw [blockHandle_decode_from_some_some src v n w m h1 h2] at he
          exact absurd he (by simp)
    · intro h
      rcases h with h | ⟨p, hp1, hp2⟩
      · exact ⟨_, blockHandle_decode_from_none src h⟩
      · obtain ⟨v, n⟩ := p
        exact ⟨_, blockHandle_decode_from_some_none src v n hp1 hp2⟩

/-- Witness for C6: a lone continuation byte is a truncated varint, and
decoding it yields the bad-handle Corruption error. -/
theorem blockHandle_decode_error_iff_witness :
    BlockHandle.decode_from [128] =
      Except.error ⟨Status.Corruption, some "bad block handle"⟩ := by
  obtain ⟨e, he⟩ := (blockHandle_decode_error_iff [128]).2.1.mpr (Or.inl rfl)
  have h2 := (blockHandle_decode_error_iff [128]).1 e he
  rw [he, h2]

/-- C9 counterexample: an input of length 44 — shorter than
`FOOTER_ENCODED_LENGTH = 48` — does not make `Footer.decode_from` panic
(the slice at byte 40 is still in bounds); it returns the bad-magic
Corruption error instead. -/
theorem footer_decode_len44_no_panic :
    Footer.decode_from (List.replicate 44 0) =
      some (Except.error ⟨Status.Corruption, some "not an sstable (bad magic number)"⟩) ∧
      Footer.decode_from (List.replicate 44 0) ≠ none := by
  decide

/-- C9 (amended): `Footer.decode_from` panics (modelled as `none`) exactly on
inputs shorter than `FOOTER_ENCODED_LENGTH - 8 = 40` bytes, where the slice
`src[FOOTER_ENCODED_LENGTH - 8..]` is out of bounds; on inputs of length at
least 40 it never panics and reads the magic from the fixed byte range
`[40, 48)` (not from the last 8 bytes); on byte-valued inputs of length 40
to 47 it returns the bad-magic Corruption error, because fewer than 8 bytes
cannot decode to the magic. -/
theorem footer_decode_totality (src : List Nat) :
    (src.length < FOOTER_ENCODED_LENGTH - 8 → Footer.decode_from src = none) ∧
      (FOOTER_ENCODED_LENGTH - 8 ≤ src.length → Footer.decode_from src ≠ none) ∧
      (FOOTER_ENCODED_LENGTH - 8 ≤ src.length →
        decode_fixed_64 (src.drop (FOOTER_ENCODED_LENGTH - 8)) ≠ TABLE_MAGIC_NUMBER →
        Footer.decode_from src =
          some (Except.error ⟨Status.Corruption, some "not an sstable (bad magic number)"⟩)) ∧
      (FOOTER_ENCODED_LENGTH - 8 ≤ src.length → src.length < FOOTER_ENCODED_LENGTH →
        (∀ b ∈ src, b < 256) →
        Footer.decode_from src =
          some (Except.error ⟨Status.Corruption, some "not an sstable (bad magic number)"⟩)) := by
  have h40 : FOOTER_ENCODED_LENGTH - 8 = 40 := by
    norm_num [FOOTER_ENCODED_LENGTH, MAX_BLOCK_HANDLE_ENCODE_LENGTH, MAX_VARINT_LEN_U64]
  have h48 : FOOTER_ENCODED_LENGTH = 48 := by
    norm_num [FOOTER_ENCODED_LENGTH, MAX_BLOCK_HANDLE_ENCODE_LENGTH, MAX_VARINT_LEN_U64]
  refine ⟨footer_decode_short src, fun hge => footer_decode_isSome src (by omega),
    fun hge hm => footer_decode_bad_magic src (by omega) hm, ?_⟩
  intro hge hlt hb
  apply footer_decode_bad_magic src (by omega)
  unfold decode_fixed_64
  have htlen : ((src.drop (FOOTER_ENCODED_LENGTH - 8)).take 8).length ≤ 7 := by
    simp only [List.length_take, List.length_drop]
    omega
  have hlt' := leDecode_lt ((src.drop (FOOTER_ENCODED_LENGTH - 8)).take 8)
    (fun b hb' => hb b (List.mem_of_mem_drop (List.mem_of_mem_take hb')))
  have hpow : (256 : Nat) ^ ((src.drop (FOOTER_ENCODED_LENGTH - 8)).take 8).length ≤ 256 ^ 7 :=
    Nat.pow_le_pow_right (by norm_num) htlen
  have hmagicval : TABLE_MAGIC_NUMBER = 15800726617472432983 := by
    norm_num [TABLE_MAGIC_NUMBER]
  have h2567 : (256 : Nat) ^ 7 = 72057594037927936 := by norm_num
  omega

/-- Witness for the amended C9 at concrete inputs of lengths 30, 50 and 44. -/
theorem footer_decode_totality_witness :
    Footer.decode_from (List.replicate 30 0) = none ∧
      Footer.decode_from (List.replicate 50 0) ≠ none ∧
      Footer.decode_from (List.replicate 50 0) =
        some (Except.error ⟨Status.Corruption, some "not an sstable (bad magic number)"⟩) ∧
      Footer.decode_from (List.replicate 44 1) =
        some (Except.error ⟨Status.Corruption, some "not an sstable (bad magic number)"⟩) :=
  ⟨(footer_decode_totality (List.replicate 30 0)).1 (by decide),
    (footer_decode_totality (List.replicate 50 0)).2.1 (by decide),
    (footer_decode_totality (List.replicate 50 0)).2.2.1 (by decide) (by decide),
    (footer_decode_totality (List.replicate 44 1)).2.2.2 (by decide) (by decide) (by decide)⟩

/-- C10: in `Footer.decode_from` the magic check happens before any handle
decoding: every in-bounds input whose magic field (the fixed byte range
`[FOOTER_ENCODED_LENGTH - 8, FOOTER_ENCODED_LENGTH)`) differs from
`TABLE_MAGIC_NUMBER` yields the bad-magic Corruption error regardless of the
handle bytes, and the "bad block handle" Corruption error can only be
returned when the magic field matches. -/
theorem footer_magic_checked_first (src : List Nat) :
    (FOOTER_ENCODED_LENGTH - 8 ≤ src.length →
      decode_fixed_64 (src.drop (FOOTER_ENCODED_LENGTH - 8)) ≠ TABLE_MAGIC_NUMBER →
      Footer.decode_from src =
        some (Except.error ⟨Status.Corruption, some "not an sstable (bad magic number)"⟩)) ∧
      (Footer.decode_from src =
          some (Except.error ⟨Status.Corruption, some "bad block handle"⟩) →
        decode_fixed_64 (src.drop (FOOTER_ENCODED_LENGTH - 8)) = TABLE_MAGIC_NUMBER) := by
  constructor
  · intro hge hm
    exact footer_decode_bad_magic src (by omega) hm
  · intro h
    by_cases hlen : src.length < FOOTER_ENCODED_LENGTH - 8
    · rw [footer_decode_short src hlen] at h
      exact absurd h (by simp)
    · by_cases hm : decode_fixed_64 (src.drop (FOOTER_ENCODED_LENGTH - 8)) = TABLE_MAGIC_NUMBER
      · exact hm
      · rw [footer_decode_bad_magic src hlen hm] at h
        exact absurd h (by decide)

/-- Witness for C10: 48 zero bytes have a zero magic field and fail with the
bad-magic error; an input whose handle area is 40 continuation bytes but whose
magic field is correct reaches the handle decoder, showing the magic matched. -/
theorem footer_magic_checked_first_witness :
    Footer.decode_from (List.replicate 48 0) =
      some (Except.error ⟨Status.Corruption, some "not an sstable (bad magic number)"⟩) ∧
      decode_fixed_64 ((List.replicate 40 128 ++ leEncode 8 TABLE_MAGIC_NUMBER).drop
        (FOOTER_ENCODED_LENGTH - 8)) = TABLE_MAGIC_NUMBER :=
  ⟨(footer_magic_checked_first (List.replicate 48 0)).1 (by decide) (by decide),
    (footer_magic_checked_first (List.replicate 40 128 ++ leEncode 8 TABLE_MAGIC_NUMBER)).2
      (by decide)⟩

end Wickdb
